import Mathlib

/-!
Verification development for the gold trading simulator.

The simulator core is the `runSimulation` closure of the canonical UI
component (the multi-position, trailing-stop variant) together with the
ledger metric helpers of `utils.ts`.  All currency and price arithmetic,
which the source performs on JavaScript numbers, is embedded into `ℚ`;
calendar dates, which the source only compares for equality and uses as
labels, are embedded as natural-number day indices.  `Option` models
JavaScript runtime failures (an invalid-parameter rejection, an
out-of-bounds read on an empty series) and, for the ledger metrics,
non-finite IEEE results (`NaN`/`Infinity`) arising from division by zero.
-/

namespace GoldSim

/-- One daily price observation, mirroring `GoldPriceDataType`
(`date`, `openingPrice`, `highestPrice`, `lowestPrice`, `currentPrice`). -/
structure PricePoint where
  date : ℕ
  openingPrice : ℚ
  highestPrice : ℚ
  lowestPrice : ℚ
  currentPrice : ℚ
deriving DecidableEq

/-- The `SimulationParams` record of the canonical variant. -/
structure SimulationParams where
  investmentCapital : ℚ
  positionSizePercent : ℚ
  leverage : ℚ
  stopLossDollar : ℚ
  minPriceMovement : ℚ
  dailyFeePercent : ℚ
  useTrailingStop : Bool
deriving DecidableEq

/-- An element of the `activePositions` array inside `runSimulation`. -/
structure ActivePosition where
  entryPrice : ℚ
  entryDate : ℕ
  highestPrice : ℚ
  baseAmount : ℚ
  leveragedAmount : ℚ
  accumulatedFees : ℚ
  lastFeeDate : ℕ
  remainingCapitalAtEntry : ℚ
deriving DecidableEq

/-- The `TradeData` record pushed onto `tradeHistory`. -/
structure TradeData where
  entry : ℕ
  exit : ℕ
  entryPrice : ℚ
  exitPrice : ℚ
  highestPrice : ℚ
  baseAmount : ℚ
  leveragedAmount : ℚ
  pnl : ℚ
  fees : ℚ
  daysHeld : ℕ
  remainingCapital : ℚ
  capitalAtEntry : ℚ
deriving DecidableEq

/-- The `OpenPosition` record pushed onto `openPositions` during
end-of-series liquidation (kept for display purposes only). -/
structure OpenPosition where
  entryDate : ℕ
  entryPrice : ℚ
  currentPrice : ℚ
  highestPrice : ℚ
  baseAmount : ℚ
  leveragedAmount : ℚ
  unrealizedPnl : ℚ
  accumulatedFees : ℚ
  capitalAtEntry : ℚ
deriving DecidableEq

/-- One point of the equity curve. -/
structure EquityPoint where
  date : ℕ
  equity : ℚ
deriving DecidableEq

/-- The mutable accumulators local to `runSimulation`, gathered into one
state record: running capital, P&L, counters, curve, ledger, open
positions and the date-change detector `currentDate`. -/
structure SimState where
  currentCapital : ℚ
  totalProfitLoss : ℚ
  tradesExecuted : ℕ
  totalFees : ℚ
  consecutiveLosses : ℕ
  maxConsecutiveLosses : ℕ
  skippedTrades : ℕ
  equityCurve : List EquityPoint
  tradeHistory : List TradeData
  activePositions : List ActivePosition
  currentDate : Option ℕ
deriving DecidableEq

/-- The `SimulationResults` record handed to `setResults`. -/
structure SimulationResults where
  finalCapital : ℚ
  totalProfitLoss : ℚ
  totalTrades : ℕ
  totalFees : ℚ
  equityCurve : List EquityPoint
  tradeHistory : List TradeData
  successRate : ℚ
  maxDrawdown : ℚ
  maxConsecutiveLosses : ℕ
  avgProfitPerTrade : ℚ
  openPositions : List OpenPosition
  skippedTrades : ℕ
deriving DecidableEq

/-- `validateParams`: the early-return validation chain of the canonical
variant (`useTrailingStop` is not validated). -/
def validateParams (p : SimulationParams) : Bool :=
  if p.investmentCapital ≤ 0 then false
  else if p.positionSizePercent ≤ 0 ∨ 100 < p.positionSizePercent then false
  else if p.leverage ≤ 0 ∨ 200 < p.leverage then false
  else if p.stopLossDollar ≤ 0 then false
  else if p.minPriceMovement < 0 then false
  else if p.dailyFeePercent < 0 then false
  else true

/-- `shouldOpenPosition`: fires when the open-to-open percentage movement
reaches the threshold. -/
def shouldOpenPosition (currentPrice previousPrice threshold : ℚ) : Bool :=
  decide ((currentPrice - previousPrice) / previousPrice * 100 ≥ threshold)

/-- `isStopLossTriggered`: in trailing mode, the dollar loss of the
leveraged amount measured from the highest price; the fixed-stop branch of
the source returns `false` unconditionally. -/
def isStopLossTriggered (currentPrice highestPrice leveragedAmount
    stopLossAmount : ℚ) (useTrailing : Bool) : Bool :=
  if useTrailing = false then false
  else decide (leveragedAmount * ((highestPrice - currentPrice) / highestPrice) ≥ stopLossAmount)

/-- `calculateStopLossPrice`: the synthetic exit price at which the
stop-loss dollar amount would exactly trigger. -/
def calculateStopLossPrice (highestPrice leveragedAmount stopLossAmount : ℚ) : ℚ :=
  highestPrice * (1 - stopLossAmount / leveragedAmount)

/-- `calculateDaysHeld`: with dates embedded as whole-day indices, the
source's `Math.ceil` of the absolute millisecond difference over a day is
the absolute difference of the indices. -/
def calculateDaysHeld (startDate endDate : ℕ) : ℕ :=
  max startDate endDate - min startDate endDate

/-- The `dailyFee` local of the fee loop:
`(params.dailyFeePercent / 100) * position.baseAmount`. -/
def dailyFeeOf (params : SimulationParams) (pos : ActivePosition) : ℚ :=
  params.dailyFeePercent / 100 * pos.baseAmount

/-- The fee-deduction loop run once per date change: each position whose
`lastFeeDate` is not today is charged its daily fee; if capital cannot
cover the fee, whatever capital remains is paid, capital becomes zero and
the loop `break`s (the partially charged position keeps its stale
`lastFeeDate`).  Returns the updated positions, capital and `totalFees`. -/
def applyDailyFees (params : SimulationParams) (date : ℕ) :
    List ActivePosition → ℚ → ℚ → List ActivePosition × ℚ × ℚ
  | [], cap, fees => ([], cap, fees)
  | pos :: rest, cap, fees =>
    if pos.lastFeeDate ≠ date then
      if dailyFeeOf params pos ≤ cap then
        ((applyDailyFees params date rest (cap - dailyFeeOf params pos)
              (fees + dailyFeeOf params pos)).1.cons
            { pos with accumulatedFees := pos.accumulatedFees + dailyFeeOf params pos,
                       lastFeeDate := date },
         (applyDailyFees params date rest (cap - dailyFeeOf params pos)
            (fees + dailyFeeOf params pos)).2.1,
         (applyDailyFees params date rest (cap - dailyFeeOf params pos)
            (fees + dailyFeeOf params pos)).2.2)
      else
        ({ pos with accumulatedFees := pos.accumulatedFees + cap } :: rest, 0, fees + cap)
    else
      ((applyDailyFees params date rest cap fees).1.cons pos,
       (applyDailyFees params date rest cap fees).2.1,
       (applyDailyFees params date rest cap fees).2.2)

/-- The new-day block of the loop: when `currentDate` differs from today's
date it is updated and the fee loop runs. -/
def feeStage (params : SimulationParams) (day : PricePoint) (st : SimState) : SimState :=
  if st.currentDate = some day.date then st
  else
    { st with
      currentDate := some day.date,
      activePositions := (applyDailyFees params day.date st.activePositions st.currentCapital st.totalFees).1,
      currentCapital := (applyDailyFees params day.date st.activePositions st.currentCapital st.totalFees).2.1,
      totalFees := (applyDailyFees params day.date st.activePositions st.currentCapital st.totalFees).2.2 }

/-- High-water-mark update performed before the stop check. -/
def updateHighest (pos : ActivePosition) (dayHigh : ℚ) : ActivePosition :=
  if dayHigh > pos.highestPrice then { pos with highestPrice := dayHigh } else pos

/-- The realized P&L of a stop-triggered close:
`leveragedAmount * percentageChange` at the synthetic exit price. -/
def stopPnl (params : SimulationParams) (pos : ActivePosition) : ℚ :=
  pos.leveragedAmount *
    ((calculateStopLossPrice pos.highestPrice pos.leveragedAmount params.stopLossDollar
        - pos.entryPrice) / pos.entryPrice)

/-- The `TradeData` record pushed when a stop close fires on `day`
(`remainingCapital` is capital after `baseAmount + pnl` is returned). -/
def stopTrade (params : SimulationParams) (day : PricePoint) (pos : ActivePosition)
    (st : SimState) : TradeData :=
  { entry := pos.entryDate
    exit := day.date
    entryPrice := pos.entryPrice
    exitPrice := calculateStopLossPrice pos.highestPrice pos.leveragedAmount params.stopLossDollar
    highestPrice := pos.highestPrice
    baseAmount := pos.baseAmount
    leveragedAmount := pos.leveragedAmount
    pnl := stopPnl params pos
    fees := pos.accumulatedFees
    daysHeld := calculateDaysHeld pos.entryDate day.date
    remainingCapital := st.currentCapital + (pos.baseAmount + stopPnl params pos)
    capitalAtEntry := pos.remainingCapitalAtEntry }

/-- The state updates of the stop-triggered branch: capital gets
`baseAmount + pnl` back, `totalProfitLoss` accrues the pure P&L, the trade
is appended, and the consecutive-loss counters are maintained. -/
def closeByStop (params : SimulationParams) (day : PricePoint) (pos : ActivePosition)
    (st : SimState) : SimState :=
  { st with
    currentCapital := st.currentCapital + (pos.baseAmount + stopPnl params pos)
    totalProfitLoss := st.totalProfitLoss + stopPnl params pos
    tradeHistory := st.tradeHistory ++ [stopTrade params day pos st]
    consecutiveLosses := if stopPnl params pos < 0 then st.consecutiveLosses + 1 else 0
    maxConsecutiveLosses :=
      if stopPnl params pos < 0 then max st.maxConsecutiveLosses (st.consecutiveLosses + 1)
      else st.maxConsecutiveLosses }

/-- The reverse (`i = length-1` down to `0`) position-processing loop: the
argument list is the reversed `activePositions`; each position's high-water
mark is updated, then the stop check runs against the day's low and
triggered positions are closed and spliced out.  Returns the surviving
positions (still in reversed order) and the updated state. -/
def stopScan (params : SimulationParams) (day : PricePoint) :
    List ActivePosition → SimState → List ActivePosition × SimState
  | [], st => ([], st)
  | pos :: rest, st =>
    if isStopLossTriggered day.lowestPrice (updateHighest pos day.highestPrice).highestPrice
        (updateHighest pos day.highestPrice).leveragedAmount params.stopLossDollar
        params.useTrailingStop then
      stopScan params day rest (closeByStop params day (updateHighest pos day.highestPrice) st)
    else
      ((stopScan params day rest st).1.cons (updateHighest pos day.highestPrice),
       (stopScan params day rest st).2)

/-- Wrapper restoring the original order of the surviving positions. -/
def processStops (params : SimulationParams) (day : PricePoint) (st : SimState) : SimState :=
  { (stopScan params day st.activePositions.reverse st).2 with
    activePositions := (stopScan params day st.activePositions.reverse st).1.reverse }

/-- The fixed minimum trading floor (`const MIN_TRADING_CAPITAL = 100`). -/
def MIN_TRADING_CAPITAL : ℚ := 100

/-- `Math.min((positionSizePercent / 100) * currentCapital, currentCapital)`. -/
def entryBase (params : SimulationParams) (cap : ℚ) : ℚ :=
  min (params.positionSizePercent / 100 * cap) cap

/-- The position pushed on entry: entered at today's opening price, with
the high-water mark seeded from today's high and `lastFeeDate` set to the
entry date; `remainingCapitalAtEntry` records capital before deduction. -/
def entryPosition (params : SimulationParams) (cur : PricePoint) (cap : ℚ) : ActivePosition :=
  { entryPrice := cur.openingPrice
    entryDate := cur.date
    highestPrice := cur.highestPrice
    baseAmount := entryBase params cap
    leveragedAmount := entryBase params cap * params.leverage
    accumulatedFees := 0
    lastFeeDate := cur.date
    remainingCapitalAtEntry := cap }

/-- The entry block: when capital is at least the trading floor and the
open-to-open signal fires, a position of size `entryBase` is opened unless
it would be a dust position (`< 1`); when capital is below the floor but
the signal fires, only `skippedTrades` is incremented. -/
def tryEnter (params : SimulationParams) (prev cur : PricePoint) (st : SimState) : SimState :=
  if MIN_TRADING_CAPITAL ≤ st.currentCapital then
    if shouldOpenPosition cur.openingPrice prev.openingPrice params.minPriceMovement = true then
      if 1 ≤ entryBase params st.currentCapital then
        { st with
          activePositions := st.activePositions ++ [entryPosition params cur st.currentCapital]
          currentCapital := st.currentCapital - entryBase params st.currentCapital
          tradesExecuted := st.tradesExecuted + 1 }
      else st
    else st
  else if shouldOpenPosition cur.openingPrice prev.openingPrice params.minPriceMovement = true then
    { st with skippedTrades := st.skippedTrades + 1 }
  else st

/-- The `reduce` inside the equity-curve push: the sum over open positions
of `baseAmount + unrealizedPnL` at today's closing price.  Accumulated fees
are not subtracted. -/
def unrealizedEquity (positions : List ActivePosition) (currentPrice : ℚ) : ℚ :=
  positions.foldl
    (fun sum pos =>
      sum + (pos.baseAmount + pos.leveragedAmount * ((currentPrice - pos.entryPrice) / pos.entryPrice)))
    0

/-- Appends the single equity point for the processed day. -/
def pushEquity (day : PricePoint) (st : SimState) : SimState :=
  { st with
    equityCurve := st.equityCurve ++
      [{ date := day.date,
         equity := st.currentCapital + unrealizedEquity st.activePositions day.currentPrice }] }

/-- One iteration of the day loop: fee block, stop processing, entry
check, equity point. -/
def stepDay (params : SimulationParams) (prev cur : PricePoint) (st : SimState) : SimState :=
  pushEquity cur (tryEnter params prev cur (processStops params cur (feeStage params cur st)))

/-- The `for (let index = 1; ...)` loop, with the early `break` when
capital is exhausted and no positions remain open. -/
def runDays (params : SimulationParams) : PricePoint → List PricePoint → SimState → SimState
  | _, [], st => st
  | prev, cur :: rest, st =>
    if st.currentCapital ≤ 0 ∧ st.activePositions = [] then st
    else runDays params cur rest (stepDay params prev cur st)

/-- The initial accumulator values of `runSimulation`. -/
def initState (params : SimulationParams) : SimState :=
  { currentCapital := params.investmentCapital
    totalProfitLoss := 0
    tradesExecuted := 0
    totalFees := 0
    consecutiveLosses := 0
    maxConsecutiveLosses := 0
    skippedTrades := 0
    equityCurve := []
    tradeHistory := []
    activePositions := []
    currentDate := none }

/-- The day loop applied to a price series (the state reached just before
end-of-series liquidation). -/
def simulateLoop (params : SimulationParams) (series : List PricePoint) : SimState :=
  match series with
  | [] => initState params
  | p0 :: rest => runDays params p0 rest (initState params)

/-- The realized P&L of an end-of-series liquidation at the last price. -/
def liqPnl (lastPrice : ℚ) (pos : ActivePosition) : ℚ :=
  pos.leveragedAmount * ((lastPrice - pos.entryPrice) / pos.entryPrice)

/-- The `TradeData` record pushed for a position force-closed at the end
of the series. -/
def liqTrade (lastPrice : ℚ) (lastDate : ℕ) (pos : ActivePosition) (st : SimState) : TradeData :=
  { entry := pos.entryDate
    exit := lastDate
    entryPrice := pos.entryPrice
    exitPrice := lastPrice
    highestPrice := pos.highestPrice
    baseAmount := pos.baseAmount
    leveragedAmount := pos.leveragedAmount
    pnl := liqPnl lastPrice pos
    fees := pos.accumulatedFees
    daysHeld := calculateDaysHeld pos.entryDate lastDate
    remainingCapital := st.currentCapital + (pos.baseAmount + liqPnl lastPrice pos)
    capitalAtEntry := pos.remainingCapitalAtEntry }

/-- The display-only `OpenPosition` record collected during liquidation. -/
def liqOpenRecord (lastPrice : ℚ) (pos : ActivePosition) : OpenPosition :=
  { entryDate := pos.entryDate
    entryPrice := pos.entryPrice
    currentPrice := lastPrice
    highestPrice := pos.highestPrice
    baseAmount := pos.baseAmount
    leveragedAmount := pos.leveragedAmount
    unrealizedPnl := liqPnl lastPrice pos
    accumulatedFees := pos.accumulatedFees
    capitalAtEntry := pos.remainingCapitalAtEntry }

/-- State update for liquidating one position: capital gets
`baseAmount + pnl` back, `totalProfitLoss` accrues the P&L and the trade
is appended; the consecutive-loss counters are not touched. -/
def liqStep (lastPrice : ℚ) (lastDate : ℕ) (pos : ActivePosition) (st : SimState) : SimState :=
  { st with
    currentCapital := st.currentCapital + (pos.baseAmount + liqPnl lastPrice pos)
    totalProfitLoss := st.totalProfitLoss + liqPnl lastPrice pos
    tradeHistory := st.tradeHistory ++ [liqTrade lastPrice lastDate pos st] }

/-- The `activePositions.forEach` liquidation block, returning the final
state and the collected `OpenPosition` display records. -/
def liquidateAll (lastPrice : ℚ) (lastDate : ℕ) :
    List ActivePosition → SimState → SimState × List OpenPosition
  | [], st => (st, [])
  | pos :: rest, st =>
    ((liquidateAll lastPrice lastDate rest (liqStep lastPrice lastDate pos st)).1,
     (liquidateAll lastPrice lastDate rest (liqStep lastPrice lastDate pos st)).2.cons
       (liqOpenRecord lastPrice pos))

/-- The `for (const point of equityCurve)` loop of the canonical
`calculateDrawdown` helper: a point above the running peak raises the
peak, any other point contributes its drawdown fraction
`(peak - equity) / peak`.  The source divides by the running peak; `ℚ`
division by zero yields `0` where IEEE yields a non-finite value when the
peak is zero, a divergence no stated claim depends on. -/
def drawdownFold : List EquityPoint → ℚ → ℚ → ℚ
  | [], _, maxDd => maxDd
  | p :: rest, peak, maxDd =>
    if p.equity > peak then drawdownFold rest p.equity maxDd
    else drawdownFold rest peak (max maxDd ((peak - p.equity) / peak))

/-- `calculateDrawdown` of the canonical variant: maximum running-peak
drawdown as a fraction, with an explicit guard returning `0` on an empty
curve. -/
def calculateDrawdown : List EquityPoint → ℚ
  | [] => 0
  | p :: rest => drawdownFold (p :: rest) p.equity 0

/-- The inline `successRate` computation of `runSimulation`: fraction of
ledger trades with positive P&L, `0` on an empty ledger. -/
def successRateOf (tradeHistory : List TradeData) : ℚ :=
  if 0 < tradeHistory.length then
    ((tradeHistory.filter (fun t => decide (t.pnl > 0))).length : ℚ) / (tradeHistory.length : ℚ)
  else 0

/-- Assembles the `setResults` record from the post-liquidation state. -/
def assembleResults (st : SimState) (ops : List OpenPosition) : SimulationResults :=
  { finalCapital := st.currentCapital
    totalProfitLoss := st.totalProfitLoss
    totalTrades := st.tradesExecuted
    totalFees := st.totalFees
    equityCurve := st.equityCurve
    tradeHistory := st.tradeHistory
    successRate := successRateOf st.tradeHistory
    maxDrawdown := calculateDrawdown st.equityCurve
    maxConsecutiveLosses := st.maxConsecutiveLosses
    avgProfitPerTrade :=
      st.totalProfitLoss / (if st.tradesExecuted = 0 then 1 else (st.tradesExecuted : ℚ))
    openPositions := ops
    skippedTrades := st.skippedTrades }

/-- End-of-series liquidation followed by metric assembly, applied to the
loop state: the tail of `runSimulation` after the day loop. -/
def finishRun (params : SimulationParams) (series : List PricePoint)
    (lastPt : PricePoint) : SimulationResults :=
  assembleResults
    (liquidateAll lastPt.currentPrice lastPt.date
        (simulateLoop params series).activePositions (simulateLoop params series)).1
    (liquidateAll lastPt.currentPrice lastPt.date
        (simulateLoop params series).activePositions (simulateLoop params series)).2

/-- `runSimulation`: validation, the day loop, end-of-series liquidation
at the last available price and date, and metric assembly.  `none` models
the invalid-parameter rejection and the runtime failure of reading the
last element of an empty series; every non-empty series completes (a
single-point series yields an empty curve and ledger, which the canonical
`calculateDrawdown` guards). -/
def runSimulation (params : SimulationParams) (series : List PricePoint) :
    Option SimulationResults :=
  if validateParams params = true then
    match series with
    | [] => none
    | p0 :: rest =>
      some (finishRun params (p0 :: rest) ((p0 :: rest).getLast (List.cons_ne_nil p0 rest)))
  else none

/-! Ledger metrics of `utils.ts` (`calculatePerformanceMetrics` and
`calculateMaxConsecutiveLosses`). -/

/-- JavaScript division where a zero denominator yields a non-finite
number: `none` models `NaN`/`Infinity`. -/
def jsDiv (a b : ℚ) : Option ℚ :=
  if b = 0 then none else some (a / b)

/-- `wins.length / tradeHistory.length` of `calculatePerformanceMetrics`:
the division is unguarded, so an empty ledger produces `0/0 = NaN`
(modelled as `none`). -/
def winRate (tradeHistory : List TradeData) : Option ℚ :=
  jsDiv ((tradeHistory.filter (fun t => decide (t.pnl > 0))).length : ℚ)
    (tradeHistory.length : ℚ)

/-- `averageWin`: mean P&L of winning trades, guarded to `0` when there
are none. -/
def averageWin (tradeHistory : List TradeData) : ℚ :=
  if 0 < (tradeHistory.filter (fun t => decide (t.pnl > 0))).length then
    ((tradeHistory.filter (fun t => decide (t.pnl > 0))).map TradeData.pnl).sum /
      ((tradeHistory.filter (fun t => decide (t.pnl > 0))).length : ℚ)
  else 0

/-- `averageLoss`: absolute mean P&L of losing trades, guarded to `0`
when there are none. -/
def averageLoss (tradeHistory : List TradeData) : ℚ :=
  if 0 < (tradeHistory.filter (fun t => decide (t.pnl < 0))).length then
    |((tradeHistory.filter (fun t => decide (t.pnl < 0))).map TradeData.pnl).sum /
        ((tradeHistory.filter (fun t => decide (t.pnl < 0))).length : ℚ)|
  else 0

/-- `profitFactor = (averageWin * winRate) / (averageLoss * (1 - winRate))`:
non-finite (`none`) when `winRate` already is, or when the denominator is
zero (e.g. a ledger with no losing trades). -/
def profitFactor (tradeHistory : List TradeData) : Option ℚ :=
  match winRate tradeHistory with
  | none => none
  | some w => jsDiv (averageWin tradeHistory * w) (averageLoss tradeHistory * (1 - w))

/-- The body of the `forEach` in `calculateMaxConsecutiveLosses`: the pair
is `(current, maxConsecutive)`. -/
def calcMaxStep (cm : ℕ × ℕ) (t : TradeData) : ℕ × ℕ :=
  if t.pnl < 0 then (cm.1 + 1, max cm.2 (cm.1 + 1)) else (0, cm.2)

/-- `calculateMaxConsecutiveLosses` of `utils.ts`. -/
def calculateMaxConsecutiveLosses (tradeHistory : List TradeData) : ℕ :=
  (tradeHistory.foldl calcMaxStep (0, 0)).2

/-! Specification-side definitions, used to compare source computations
with the spec's wording. -/

/-- Modelled from the spec: the length of the leading run of consecutive
losing trades (`pnl < 0`). -/
def lossRunLen : List TradeData → ℕ
  | [] => 0
  | t :: rest => if t.pnl < 0 then lossRunLen rest + 1 else 0

/-- Modelled from the spec: the length of the longest run of consecutive
losing trades in ledger order, as the maximum over all suffixes of the
leading loss run. -/
def maxLossRunSpec : List TradeData → ℕ
  | [] => 0
  | t :: rest => max (lossRunLen (t :: rest)) (maxLossRunSpec rest)

/-! Accounting helpers for the invariants. -/

/-- Sum of realized P&L over a ledger. -/
def sumPnl : List TradeData → ℚ
  | [] => 0
  | t :: rest => t.pnl + sumPnl rest

/-- Sum of committed base capital over open positions. -/
def sumBase : List ActivePosition → ℚ
  | [] => 0
  | pos :: rest => pos.baseAmount + sumBase rest

/-- Zero-valued `TradeData` used as a `getD` fallback. -/
def dummyTrade : TradeData :=
  { entry := 0, exit := 0, entryPrice := 0, exitPrice := 0, highestPrice := 0,
    baseAmount := 0, leveragedAmount := 0, pnl := 0, fees := 0, daysHeld := 0,
    remainingCapital := 0, capitalAtEntry := 0 }

/-- A `TradeData` record carrying only a P&L value, used for concrete
ledger scenarios. -/
def pnlTrade (x : ℚ) : TradeData :=
  { dummyTrade with pnl := x }

/-- Zero-valued `SimulationResults` used as a `getD` fallback. -/
def dummyResults : SimulationResults :=
  { finalCapital := 0, totalProfitLoss := 0, totalTrades := 0, totalFees := 0,
    equityCurve := [], tradeHistory := [], successRate := 0, maxDrawdown := 0,
    maxConsecutiveLosses := 0, avgProfitPerTrade := 0, openPositions := [],
    skippedTrades := 0 }

/-! Basic accounting lemmas. -/

@[simp]
lemma sumPnl_nil : sumPnl [] = 0 := rfl

@[simp]
lemma sumPnl_cons (t : TradeData) (l : List TradeData) :
    sumPnl (t :: l) = t.pnl + sumPnl l := rfl

@[simp]
lemma sumPnl_append (l₁ l₂ : List TradeData) :
    sumPnl (l₁ ++ l₂) = sumPnl l₁ + sumPnl l₂ := by
  induction l₁ with
  | nil => simp
  | cons t rest ih => simp [ih]; ring

@[simp]
lemma sumBase_nil : sumBase [] = 0 := rfl

@[simp]
lemma sumBase_cons (p : ActivePosition) (l : List ActivePosition) :
    sumBase (p :: l) = p.baseAmount + sumBase l := rfl

@[simp]
lemma sumBase_append (l₁ l₂ : List ActivePosition) :
    sumBase (l₁ ++ l₂) = sumBase l₁ + sumBase l₂ := by
  induction l₁ with
  | nil => simp
  | cons p rest ih => simp [ih]; ring

@[simp]
lemma sumBase_reverse (l : List ActivePosition) : sumBase l.reverse = sumBase l := by
  induction l with
  | nil => rfl
  | cons p rest ih => simp [ih]; ring

lemma validate_stop_pos {p : SimulationParams} (h : validateParams p = true) :
    0 < p.stopLossDollar := by
  unfold validateParams at h
  split_ifs at h with h1 h2 h3 h4 h5 h6
  exact lt_of_not_le h4

/-! Lemmas about the fee loop. -/

lemma applyDailyFees_capFees (params : SimulationParams) (date : ℕ) :
    ∀ (l : List ActivePosition) (cap fees : ℚ),
      (applyDailyFees params date l cap fees).2.1 + (applyDailyFees params date l cap fees).2.2 =
        cap + fees := by
  intro l
  induction l with
  | nil => intro cap fees; simp [applyDailyFees]
  | cons pos rest ih =>
    intro cap fees
    simp only [applyDailyFees]
    split_ifs with h1 h2
    · rw [ih]; ring
    · simp; ring
    · exact ih cap fees

lemma applyDailyFees_sumBase (params : SimulationParams) (date : ℕ) :
    ∀ (l : List ActivePosition) (cap fees : ℚ),
      sumBase (applyDailyFees params date l cap fees).1 = sumBase l := by
  intro l
  induction l with
  | nil => intro cap fees; simp [applyDailyFees]
  | cons pos rest ih =>
    intro cap fees
    simp only [applyDailyFees]
    split_ifs with h1 h2
    · simp only [List.cons, sumBase_cons, ih]
    · simp [sumBase]
    · simp only [List.cons, sumBase_cons, ih]

lemma applyDailyFees_length (params : SimulationParams) (date : ℕ) :
    ∀ (l : List ActivePosition) (cap fees : ℚ),
      (applyDailyFees params date l cap fees).1.length = l.length := by
  intro l
  induction l with
  | nil => intro cap fees; simp [applyDailyFees]
  | cons pos rest ih =>
    intro cap fees
    simp only [applyDailyFees]
    split_ifs with h1 h2
    · simp [ih]
    · simp
    · simp [ih]

lemma applyDailyFees_core (params : SimulationParams) (date : ℕ) :
    ∀ (l : List ActivePosition) (cap fees : ℚ) (q : ActivePosition),
      q ∈ (applyDailyFees params date l cap fees).1 →
        ∃ p ∈ l, q.entryPrice = p.entryPrice ∧ q.highestPrice = p.highestPrice ∧
          q.baseAmount = p.baseAmount ∧ q.leveragedAmount = p.leveragedAmount := by
  intro l
  induction l with
  | nil => intro cap fees q hq; simp [applyDailyFees] at hq
  | cons pos rest ih =>
    intro cap fees q hq
    simp only [applyDailyFees] at hq
    split_ifs at hq with h1 h2
    · rcases List.mem_cons.mp hq with h | h
      · exact ⟨pos, List.mem_cons_self pos rest, by simp [h]⟩
      · obtain ⟨p, hp, hfacts⟩ := ih _ _ _ h
        exact ⟨p, List.mem_cons_of_mem pos hp, hfacts⟩
    · rcases List.mem_cons.mp hq with h | h
      · exact ⟨pos, List.mem_cons_self pos rest, by simp [h]⟩
      · exact ⟨q, List.mem_cons_of_mem pos h, rfl, rfl, rfl, rfl⟩
    · rcases List.mem_cons.mp hq with h | h
      · exact ⟨pos, List.mem_cons_self pos rest, by simp [h]⟩
      · obtain ⟨p, hp, hfacts⟩ := ih _ _ _ h
        exact ⟨p, List.mem_cons_of_mem pos hp, hfacts⟩

lemma applyDailyFees_mono (params : SimulationParams) (date : ℕ)
    (hrate : 0 ≤ params.dailyFeePercent) :
    ∀ (l : List ActivePosition) (cap fees : ℚ), 0 ≤ cap →
      (∀ p ∈ l, 0 ≤ p.baseAmount) →
      fees ≤ (applyDailyFees params date l cap fees).2.2 ∧
        0 ≤ (applyDailyFees params date l cap fees).2.1 := by
  intro l
  induction l with
  | nil => intro cap fees hcap _; simp [applyDailyFees, hcap]
  | cons pos rest ih =>
    intro cap fees hcap hbase
    have hfee : 0 ≤ dailyFeeOf params pos := by
      have := hbase pos (List.mem_cons_self pos rest)
      unfold dailyFeeOf
      positivity
    simp only [applyDailyFees]
    split_ifs with h1 h2
    · have hrest := ih (cap - dailyFeeOf params pos) (fees + dailyFeeOf params pos)
        (by linarith) (fun p hp => hbase p (List.mem_cons_of_mem pos hp))
      exact ⟨by linarith [hrest.1], hrest.2⟩
    · constructor
      · simp; linarith
      · simp
    · exact ih cap fees hcap (fun p hp => hbase p (List.mem_cons_of_mem pos hp))

/-! Lemmas about the high-water update and stop closes. -/

@[simp]
lemma updateHighest_entryPrice (pos : ActivePosition) (h : ℚ) :
    (updateHighest pos h).entryPrice = pos.entryPrice := by
  unfold updateHighest; split <;> rfl

@[simp]
lemma updateHighest_baseAmount (pos : ActivePosition) (h : ℚ) :
    (updateHighest pos h).baseAmount = pos.baseAmount := by
  unfold updateHighest; split <;> rfl

@[simp]
lemma updateHighest_leveragedAmount (pos : ActivePosition) (h : ℚ) :
    (updateHighest pos h).leveragedAmount = pos.leveragedAmount := by
  unfold updateHighest; split <;> rfl

lemma updateHighest_high_ge (pos : ActivePosition) (h : ℚ) :
    pos.highestPrice ≤ (updateHighest pos h).highestPrice := by
  unfold updateHighest; split
  · exact le_of_lt (by assumption)
  · exact le_refl _

/-! Lemmas about the reverse stop-processing scan. -/

lemma stopScan_acct (params : SimulationParams) (day : PricePoint) :
    ∀ (l : List ActivePosition) (st : SimState),
      (stopScan params day l st).2.currentCapital + sumBase (stopScan params day l st).1 -
          (stopScan params day l st).2.totalProfitLoss =
        st.currentCapital + sumBase l - st.totalProfitLoss := by
  intro l
  induction l with
  | nil => intro st; simp [stopScan]
  | cons pos rest ih =>
    intro st
    simp only [stopScan]
    split_ifs with h1
    · rw [ih]
      simp [closeByStop]
      ring
    · simp only [List.cons, sumBase_cons, updateHighest_baseAmount]
      rw [show ∀ a b c, a + (pos.baseAmount + b) - c = (a + b - c) + pos.baseAmount by
        intro a b c; ring]
      rw [ih]
      ring

lemma stopScan_ledger (params : SimulationParams) (day : PricePoint) :
    ∀ (l : List ActivePosition) (st : SimState),
      sumPnl (stopScan params day l st).2.tradeHistory -
          (stopScan params day l st).2.totalProfitLoss =
        sumPnl st.tradeHistory - st.totalProfitLoss := by
  intro l
  induction l with
  | nil => intro st; simp [stopScan]
  | cons pos rest ih =>
    intro st
    simp only [stopScan]
    split_ifs with h1
    · rw [ih]
      simp [closeByStop, stopTrade]
    · exact ih st

lemma stopScan_count (params : SimulationParams) (day : PricePoint) :
    ∀ (l : List ActivePosition) (st : SimState),
      (stopScan params day l st).2.tradeHistory.length + (stopScan params day l st).1.length =
        st.tradeHistory.length + l.length := by
  intro l
  induction l with
  | nil => intro st; simp [stopScan]
  | cons pos rest ih =>
    intro st
    simp only [stopScan]
    split_ifs with h1
    · rw [ih]
      simp [closeByStop]
      ring
    · simp only [List.cons, List.length_cons]
      rw [show ∀ a b, a + (b + 1) = (a + b) + 1 by intro a b; ring, ih]
      ring

lemma stopScan_frozen (params : SimulationParams) (day : PricePoint) :
    ∀ (l : List ActivePosition) (st : SimState),
      (stopScan params day l st).2.totalFees = st.totalFees ∧
      (stopScan params day l st).2.tradesExecuted = st.tradesExecuted ∧
      (stopScan params day l st).2.skippedTrades = st.skippedTrades ∧
      (stopScan params day l st).2.equityCurve = st.equityCurve ∧
      (stopScan params day l st).2.currentDate = st.currentDate ∧
      (stopScan params day l st).2.activePositions = st.activePositions := by
  intro l
  induction l with
  | nil => intro st; simp [stopScan]
  | cons pos rest ih =>
    intro st
    simp only [stopScan]
    split_ifs with h1
    · have := ih (closeByStop params day (updateHighest pos day.highestPrice) st)
      simpa [closeByStop] using this
    · exact ih st

lemma stopScan_maxInv (params : SimulationParams) (day : PricePoint) :
    ∀ (l : List ActivePosition) (st : SimState),
      (st.consecutiveLosses, st.maxConsecutiveLosses) = st.tradeHistory.foldl calcMaxStep (0, 0) →
      ((stopScan params day l st).2.consecutiveLosses,
          (stopScan params day l st).2.maxConsecutiveLosses) =
        (stopScan params day l st).2.tradeHistory.foldl calcMaxStep (0, 0) := by
  intro l
  induction l with
  | nil => intro st h; simpa [stopScan] using h
  | cons pos rest ih =>
    intro st h
    simp only [stopScan]
    split_ifs with h1
    · apply ih
      simp only [closeByStop, List.foldl_append, List.foldl_cons, List.foldl_nil, ← h]
      simp only [stopTrade, calcMaxStep]
      split_ifs with h2 <;> rfl
    · exact ih st h

/-- Key bound for the synthetic exit price: when the high-water mark is at
least the entry price and the stop amount does not exceed the leveraged
exposure, a stop close loses at most the stop-loss dollar amount. -/
lemma stopPnl_ge (params : SimulationParams) (pos : ActivePosition)
    (hentry : 0 < pos.entryPrice) (hhigh : pos.entryPrice ≤ pos.highestPrice)
    (hs : 0 < params.stopLossDollar)
    (hlev : params.stopLossDollar ≤ pos.leveragedAmount) :
    -params.stopLossDollar ≤ stopPnl params pos := by
  unfold stopPnl calculateStopLossPrice
  have hlev0 : (0 : ℚ) < pos.leveragedAmount := lt_of_lt_of_le hs hlev
  have key : pos.leveragedAmount *
      ((pos.highestPrice * (1 - params.stopLossDollar / pos.leveragedAmount) - pos.entryPrice) /
        pos.entryPrice) =
      (pos.leveragedAmount * pos.highestPrice - pos.highestPrice * params.stopLossDollar -
        pos.leveragedAmount * pos.entryPrice) / pos.entryPrice := by
    field_simp
    ring
  rw [key, le_div_iff₀ hentry]
  nlinarith [mul_nonneg (sub_nonneg.mpr hhigh) (sub_nonneg.mpr hlev)]

lemma stopScan_bound (params : SimulationParams) (day : PricePoint)
    (hs : 0 < params.stopLossDollar) :
    ∀ (l : List ActivePosition) (st : SimState),
      (∀ p ∈ l, 0 < p.entryPrice ∧ p.entryPrice ≤ p.highestPrice) →
      (∀ t ∈ st.tradeHistory,
        params.stopLossDollar ≤ t.leveragedAmount → -params.stopLossDollar ≤ t.pnl) →
      (∀ p ∈ (stopScan params day l st).1, 0 < p.entryPrice ∧ p.entryPrice ≤ p.highestPrice) ∧
      (∀ t ∈ (stopScan params day l st).2.tradeHistory,
        params.stopLossDollar ≤ t.leveragedAmount → -params.stopLossDollar ≤ t.pnl) := by
  intro l
  induction l with
  | nil => intro st hpos ht; simpa [stopScan] using ht
  | cons pos rest ih =>
    intro st hpos ht
    have hposHead := hpos pos (List.mem_cons_self pos rest)
    have hposBounds : 0 < (updateHighest pos day.highestPrice).entryPrice ∧
        (updateHighest pos day.highestPrice).entryPrice ≤
          (updateHighest pos day.highestPrice).highestPrice := by
      refine ⟨by simpa using hposHead.1, ?_⟩
      calc (updateHighest pos day.highestPrice).entryPrice = pos.entryPrice := by simp
        _ ≤ pos.highestPrice := hposHead.2
        _ ≤ (updateHighest pos day.highestPrice).highestPrice := updateHighest_high_ge pos _
    simp only [stopScan]
    split_ifs with h1
    · apply ih
      · intro p hp; exact hpos p (List.mem_cons_of_mem pos hp)
      · intro t htmem
        simp only [closeByStop, List.mem_append, List.mem_singleton] at htmem
        rcases htmem with h | h
        · exact ht t h
        · subst h
          intro hlevT
          simp only [stopTrade] at hlevT ⊢
          exact stopPnl_ge params _ hposBounds.1 hposBounds.2 hs
            (by simpa using hlevT)
    · have hrest := ih st (fun p hp => hpos p (List.mem_cons_of_mem pos hp)) ht
      refine ⟨?_, hrest.2⟩
      intro p hp
      rcases List.mem_cons.mp hp with h | h
      · subst h; exact hposBounds
      · exact hrest.1 p h

/-! Lemmas about `processStops`, restating the scan lemmas through the
order-restoring wrapper. -/

lemma processStops_acct (params : SimulationParams) (day : PricePoint) (st : SimState) :
    (processStops params day st).currentCapital +
        sumBase (processStops params day st).activePositions -
        (processStops params day st).totalProfitLoss =
      st.currentCapital + sumBase st.activePositions - st.totalProfitLoss := by
  unfold processStops
  simp only [sumBase_reverse]
  rw [stopScan_acct, sumBase_reverse]

lemma processStops_ledger (params : SimulationParams) (day : PricePoint) (st : SimState) :
    sumPnl (processStops params day st).tradeHistory -
        (processStops params day st).totalProfitLoss =
      sumPnl st.tradeHistory - st.totalProfitLoss := by
  unfold processStops
  exact stopScan_ledger params day _ st

lemma processStops_count (params : SimulationParams) (day : PricePoint) (st : SimState) :
    (processStops params day st).tradeHistory.length +
        (processStops params day st).activePositions.length =
      st.tradeHistory.length + st.activePositions.length := by
  unfold processStops
  simp only [List.length_reverse]
  rw [stopScan_count]
  simp

lemma processStops_frozen (params : SimulationParams) (day : PricePoint) (st : SimState) :
    (processStops params day st).totalFees = st.totalFees ∧
    (processStops params day st).tradesExecuted = st.tradesExecuted ∧
    (processStops params day st).skippedTrades = st.skippedTrades ∧
    (processStops params day st).equityCurve = st.equityCurve ∧
    (processStops params day st).currentDate = st.currentDate := by
  unfold processStops
  have h := stopScan_frozen params day st.activePositions.reverse st
  exact ⟨h.1, h.2.1, h.2.2.1, h.2.2.2.1, h.2.2.2.2.1⟩

lemma processStops_maxInv (params : SimulationParams) (day : PricePoint) (st : SimState)
    (h : (st.consecutiveLosses, st.maxConsecutiveLosses) =
      st.tradeHistory.foldl calcMaxStep (0, 0)) :
    ((processStops params day st).consecutiveLosses,
        (processStops params day st).maxConsecutiveLosses) =
      (processStops params day st).tradeHistory.foldl calcMaxStep (0, 0) := by
  unfold processStops
  exact stopScan_maxInv params day _ st h

lemma processStops_bound (params : SimulationParams) (day : PricePoint) (st : SimState)
    (hs : 0 < params.stopLossDollar)
    (hpos : ∀ p ∈ st.activePositions, 0 < p.entryPrice ∧ p.entryPrice ≤ p.highestPrice)
    (ht : ∀ t ∈ st.tradeHistory,
      params.stopLossDollar ≤ t.leveragedAmount → -params.stopLossDollar ≤ t.pnl) :
    (∀ p ∈ (processStops params day st).activePositions,
      0 < p.entryPrice ∧ p.entryPrice ≤ p.highestPrice) ∧
    (∀ t ∈ (processStops params day st).tradeHistory,
      params.stopLossDollar ≤ t.leveragedAmount → -params.stopLossDollar ≤ t.pnl) := by
  unfold processStops
  have h := stopScan_bound params day hs st.activePositions.reverse st
    (fun p hp => hpos p (List.mem_reverse.mp hp)) ht
  exact ⟨fun p hp => h.1 p (List.mem_reverse.mp hp), h.2⟩

/-! Lemmas about the new-day fee block. -/

lemma feeStage_frozen (params : SimulationParams) (day : PricePoint) (st : SimState) :
    (feeStage params day st).totalProfitLoss = st.totalProfitLoss ∧
    (feeStage params day st).tradeHistory = st.tradeHistory ∧
    (feeStage params day st).tradesExecuted = st.tradesExecuted ∧
    (feeStage params day st).skippedTrades = st.skippedTrades ∧
    (feeStage params day st).consecutiveLosses = st.consecutiveLosses ∧
    (feeStage params day st).maxConsecutiveLosses = st.maxConsecutiveLosses ∧
    (feeStage params day st).equityCurve = st.equityCurve := by
  unfold feeStage
  split <;> simp

lemma feeStage_capFees (params : SimulationParams) (day : PricePoint) (st : SimState) :
    (feeStage params day st).currentCapital + (feeStage params day st).totalFees =
      st.currentCapital + st.totalFees := by
  unfold feeStage
  split
  · rfl
  · simpa using applyDailyFees_capFees params day.date st.activePositions st.currentCapital
      st.totalFees

lemma feeStage_sumBase (params : SimulationParams) (day : PricePoint) (st : SimState) :
    sumBase (feeStage params day st).activePositions = sumBase st.activePositions := by
  unfold feeStage
  split
  · rfl
  · simpa using applyDailyFees_sumBase params day.date st.activePositions st.currentCapital
      st.totalFees

lemma feeStage_length (params : SimulationParams) (day : PricePoint) (st : SimState) :
    (feeStage params day st).activePositions.length = st.activePositions.length := by
  unfold feeStage
  split
  · rfl
  · simpa using applyDailyFees_length params day.date st.activePositions st.currentCapital
      st.totalFees

lemma feeStage_bound (params : SimulationParams) (day : PricePoint) (st : SimState)
    (hpos : ∀ p ∈ st.activePositions, 0 < p.entryPrice ∧ p.entryPrice ≤ p.highestPrice) :
    ∀ p ∈ (feeStage params day st).activePositions,
      0 < p.entryPrice ∧ p.entryPrice ≤ p.highestPrice := by
  unfold feeStage
  split
  · exact hpos
  · intro q hq
    simp only at hq
    obtain ⟨p, hp, he, hh, _, _⟩ := applyDailyFees_core params day.date st.activePositions
      st.currentCapital st.totalFees q hq
    rw [he, hh]
    exact hpos p hp

/-! Lemmas about the entry block. -/

lemma tryEnter_open (params : SimulationParams) (prev cur : PricePoint) (st : SimState)
    (h1 : MIN_TRADING_CAPITAL ≤ st.currentCapital)
    (h2 : shouldOpenPosition cur.openingPrice prev.openingPrice params.minPriceMovement = true)
    (h3 : 1 ≤ entryBase params st.currentCapital) :
    tryEnter params prev cur st =
      { st with
        activePositions := st.activePositions ++ [entryPosition params cur st.currentCapital]
        currentCapital := st.currentCapital - entryBase params st.currentCapital
        tradesExecuted := st.tradesExecuted + 1 } := by
  unfold tryEnter
  rw [if_pos h1, if_pos h2, if_pos h3]

lemma tryEnter_dust (params : SimulationParams) (prev cur : PricePoint) (st : SimState)
    (h1 : MIN_TRADING_CAPITAL ≤ st.currentCapital)
    (h2 : shouldOpenPosition cur.openingPrice prev.openingPrice params.minPriceMovement = true)
    (h3 : ¬ 1 ≤ entryBase params st.currentCapital) :
    tryEnter params prev cur st = st := by
  unfold tryEnter
  rw [if_pos h1, if_pos h2, if_neg h3]

lemma tryEnter_skip (params : SimulationParams) (prev cur : PricePoint) (st : SimState)
    (h1 : ¬ MIN_TRADING_CAPITAL ≤ st.currentCapital)
    (h2 : shouldOpenPosition cur.openingPrice prev.openingPrice params.minPriceMovement = true) :
    tryEnter params prev cur st = { st with skippedTrades := st.skippedTrades + 1 } := by
  unfold tryEnter
  rw [if_neg h1, if_pos h2]

lemma tryEnter_nosig (params : SimulationParams) (prev cur : PricePoint) (st : SimState)
    (h2 : shouldOpenPosition cur.openingPrice prev.openingPrice params.minPriceMovement = false) :
    tryEnter params prev cur st = st := by
  unfold tryEnter
  simp [h2]

/-! The running loop invariant: the accounting identity, the ledger/P&L
identity, the ledger/position count identity and the consecutive-loss
counter characterisation. -/

def LoopInv (params : SimulationParams) (st : SimState) : Prop :=
  st.currentCapital + sumBase st.activePositions - st.totalProfitLoss + st.totalFees =
      params.investmentCapital ∧
  st.totalProfitLoss = sumPnl st.tradeHistory ∧
  st.tradeHistory.length + st.activePositions.length = st.tradesExecuted ∧
  (st.consecutiveLosses, st.maxConsecutiveLosses) = st.tradeHistory.foldl calcMaxStep (0, 0)

lemma initState_inv (params : SimulationParams) : LoopInv params (initState params) := by
  refine ⟨?_, rfl, rfl, rfl⟩
  simp [initState]

lemma feeStage_inv (params : SimulationParams) (day : PricePoint) (st : SimState)
    (h : LoopInv params st) : LoopInv params (feeStage params day st) := by
  obtain ⟨ha, hb, hc, hd⟩ := h
  obtain ⟨f1, f2, f3, f4, f5, f6, f7⟩ := feeStage_frozen params day st
  refine ⟨?_, ?_, ?_, ?_⟩
  · have hcf := feeStage_capFees params day st
    have hsb := feeStage_sumBase params day st
    rw [f1, hsb]
    linarith
  · rw [f1, f2]; exact hb
  · rw [f2, feeStage_length, f3]; exact hc
  · rw [f5, f6, f2]; exact hd

lemma processStops_inv (params : SimulationParams) (day : PricePoint) (st : SimState)
    (h : LoopInv params st) : LoopInv params (processStops params day st) := by
  obtain ⟨ha, hb, hc, hd⟩ := h
  obtain ⟨f1, f2, f3, f5⟩ := processStops_frozen params day st
  refine ⟨?_, ?_, ?_, ?_⟩
  · have hacc := processStops_acct params day st
    rw [f1]
    linarith
  · have hl := processStops_ledger params day st
    linarith
  · have hcount := processStops_count params day st
    omega
  · exact processStops_maxInv params day st hd

lemma tryEnter_inv (params : SimulationParams) (prev cur : PricePoint) (st : SimState)
    (h : LoopInv params st) : LoopInv params (tryEnter params prev cur st) := by
  obtain ⟨ha, hb, hc, hd⟩ := h
  unfold tryEnter
  split_ifs with h1 h2 h3 h4
  · refine ⟨?_, hb, ?_, hd⟩
    · simp only [sumBase_append, sumBase_cons, sumBase_nil, entryPosition]
      linarith
    · simp only [List.length_append, List.length_cons, List.length_nil]
      omega
  · exact ⟨ha, hb, hc, hd⟩
  · exact ⟨ha, hb, hc, hd⟩
  · exact ⟨ha, hb, hc, hd⟩
  · exact ⟨ha, hb, hc, hd⟩

lemma pushEquity_inv (params : SimulationParams) (day : PricePoint) (st : SimState)
    (h : LoopInv params st) : LoopInv params (pushEquity day st) := h

lemma stepDay_inv (params : SimulationParams) (prev cur : PricePoint) (st : SimState)
    (h : LoopInv params st) : LoopInv params (stepDay params prev cur st) :=
  pushEquity_inv params cur _
    (tryEnter_inv params prev cur _
      (processStops_inv params cur _ (feeStage_inv params cur _ h)))

lemma runDays_inv (params : SimulationParams) :
    ∀ (days : List PricePoint) (prev : PricePoint) (st : SimState),
      LoopInv params st → LoopInv params (runDays params prev days st) := by
  intro days
  induction days with
  | nil => intro prev st h; exact h
  | cons cur rest ih =>
    intro prev st h
    simp only [runDays]
    split
    · exact h
    · exact ih cur _ (stepDay_inv params prev cur st h)

lemma simulateLoop_inv (params : SimulationParams) (series : List PricePoint) :
    LoopInv params (simulateLoop params series) := by
  unfold simulateLoop
  match series with
  | [] => exact initState_inv params
  | p0 :: rest => exact runDays_inv params rest p0 _ (initState_inv params)

/-! Lemmas about end-of-series liquidation. -/

lemma liquidateAll_acct (lp : ℚ) (ld : ℕ) :
    ∀ (l : List ActivePosition) (st : SimState),
      (liquidateAll lp ld l st).1.currentCapital - (liquidateAll lp ld l st).1.totalProfitLoss =
        st.currentCapital - st.totalProfitLoss + sumBase l := by
  intro l
  induction l with
  | nil => intro st; simp [liquidateAll]
  | cons pos rest ih =>
    intro st
    simp only [liquidateAll]
    rw [ih]
    simp [liqStep]
    ring

lemma liquidateAll_ledger (lp : ℚ) (ld : ℕ) :
    ∀ (l : List ActivePosition) (st : SimState),
      sumPnl (liquidateAll lp ld l st).1.tradeHistory -
          (liquidateAll lp ld l st).1.totalProfitLoss =
        sumPnl st.tradeHistory - st.totalProfitLoss := by
  intro l
  induction l with
  | nil => intro st; simp [liquidateAll]
  | cons pos rest ih =>
    intro st
    simp only [liquidateAll]
    rw [ih]
    simp [liqStep, liqTrade]

lemma liquidateAll_len (lp : ℚ) (ld : ℕ) :
    ∀ (l : List ActivePosition) (st : SimState),
      (liquidateAll lp ld l st).1.tradeHistory.length = st.tradeHistory.length + l.length := by
  intro l
  induction l with
  | nil => intro st; simp [liquidateAll]
  | cons pos rest ih =>
    intro st
    simp only [liquidateAll]
    rw [ih]
    simp [liqStep]
    ring

lemma liquidateAll_frozen (lp : ℚ) (ld : ℕ) :
    ∀ (l : List ActivePosition) (st : SimState),
      (liquidateAll lp ld l st).1.totalFees = st.totalFees ∧
      (liquidateAll lp ld l st).1.tradesExecuted = st.tradesExecuted ∧
      (liquidateAll lp ld l st).1.skippedTrades = st.skippedTrades ∧
      (liquidateAll lp ld l st).1.equityCurve = st.equityCurve ∧
      (liquidateAll lp ld l st).1.maxConsecutiveLosses = st.maxConsecutiveLosses ∧
      (liquidateAll lp ld l st).1.consecutiveLosses = st.consecutiveLosses := by
  intro l
  induction l with
  | nil => intro st; simp [liquidateAll]
  | cons pos rest ih =>
    intro st
    simp only [liquidateAll]
    have h := ih (liqStep lp ld pos st)
    simpa [liqStep] using h

/-! Price-positivity invariant used for the stop-loss bound. -/

def PosOK (st : SimState) : Prop :=
  ∀ p ∈ st.activePositions, 0 < p.entryPrice ∧ p.entryPrice ≤ p.highestPrice

def TradeOK (params : SimulationParams) (st : SimState) : Prop :=
  ∀ t ∈ st.tradeHistory,
    params.stopLossDollar ≤ t.leveragedAmount → -params.stopLossDollar ≤ t.pnl

lemma tryEnter_bound (params : SimulationParams) (prev cur : PricePoint) (st : SimState)
    (hcur : 0 < cur.openingPrice ∧ cur.openingPrice ≤ cur.highestPrice)
    (hpos : PosOK st) (ht : TradeOK params st) :
    PosOK (tryEnter params prev cur st) ∧ TradeOK params (tryEnter params prev cur st) := by
  unfold tryEnter
  split_ifs with h1 h2 h3 h4
  · constructor
    · intro p hp
      simp only [List.mem_append, List.mem_singleton] at hp
      rcases hp with h | h
      · exact hpos p h
      · subst h; exact ⟨hcur.1, hcur.2⟩
    · exact ht
  · exact ⟨hpos, ht⟩
  · exact ⟨hpos, ht⟩
  · exact ⟨hpos, ht⟩
  · exact ⟨hpos, ht⟩

lemma stepDay_bound (params : SimulationParams) (prev cur : PricePoint) (st : SimState)
    (hs : 0 < params.stopLossDollar)
    (hcur : 0 < cur.openingPrice ∧ cur.openingPrice ≤ cur.highestPrice)
    (hpos : PosOK st) (ht : TradeOK params st) :
    PosOK (stepDay params prev cur st) ∧ TradeOK params (stepDay params prev cur st) := by
  unfold stepDay
  have h1 : PosOK (feeStage params cur st) := feeStage_bound params cur st hpos
  have h1t : TradeOK params (feeStage params cur st) := by
    intro t htm
    rw [(feeStage_frozen params cur st).2.1] at htm
    exact ht t htm
  have h2 := processStops_bound params cur (feeStage params cur st) hs h1 h1t
  have h3 := tryEnter_bound params prev cur _ hcur h2.1 h2.2
  exact ⟨h3.1, h3.2⟩

lemma runDays_bound (params : SimulationParams) (hs : 0 < params.stopLossDollar) :
    ∀ (days : List PricePoint) (prev : PricePoint) (st : SimState),
      (∀ pt ∈ days, 0 < pt.openingPrice ∧ pt.openingPrice ≤ pt.highestPrice) →
      PosOK st → TradeOK params st →
      PosOK (runDays params prev days st) ∧ TradeOK params (runDays params prev days st) := by
  intro days
  induction days with
  | nil => intro prev st _ hp htr; exact ⟨hp, htr⟩
  | cons cur rest ih =>
    intro prev st hdays hp htr
    simp only [runDays]
    split
    · exact ⟨hp, htr⟩
    · have hstep := stepDay_bound params prev cur st hs
        (hdays cur (List.mem_cons_self cur rest)) hp htr
      exact ih cur _ (fun pt hpt => hdays pt (List.mem_cons_of_mem cur hpt)) hstep.1 hstep.2

/-! Equity-curve lemmas. -/

lemma tryEnter_curve (params : SimulationParams) (prev cur : PricePoint) (st : SimState) :
    (tryEnter params prev cur st).equityCurve = st.equityCurve := by
  unfold tryEnter
  split_ifs <;> rfl

lemma stepDay_curve (params : SimulationParams) (prev cur : PricePoint) (st : SimState) :
    ∃ e, (stepDay params prev cur st).equityCurve =
      st.equityCurve ++ [{ date := cur.date, equity := e }] := by
  refine ⟨(tryEnter params prev cur (processStops params cur (feeStage params cur st))).currentCapital +
      unrealizedEquity
        (tryEnter params prev cur (processStops params cur (feeStage params cur st))).activePositions
        cur.currentPrice, ?_⟩
  unfold stepDay pushEquity
  simp only []
  rw [tryEnter_curve, (processStops_frozen params cur _).2.2.2.1,
    (feeStage_frozen params cur st).2.2.2.2.2.2]

lemma runDays_curve (params : SimulationParams) :
    ∀ (days : List PricePoint) (prev : PricePoint) (st : SimState),
      ∃ (pts : List EquityPoint) (suffix : List ℕ),
        (runDays params prev days st).equityCurve = st.equityCurve ++ pts ∧
        days.map PricePoint.date = pts.map EquityPoint.date ++ suffix := by
  intro days
  induction days with
  | nil => intro prev st; exact ⟨[], [], by simp [runDays], by simp⟩
  | cons cur rest ih =>
    intro prev st
    simp only [runDays]
    split
    · exact ⟨[], (cur :: rest).map PricePoint.date, by simp, by simp⟩
    · obtain ⟨e, he⟩ := stepDay_curve params prev cur st
      obtain ⟨pts, suffix, h1, h2⟩ := ih cur (stepDay params prev cur st)
      refine ⟨{ date := cur.date, equity := e } :: pts, suffix, ?_, ?_⟩
      · rw [h1, he]
        simp
      · simp [h2]

/-! Extraction of the successful-run shape. -/

lemma runSimulation_some {params : SimulationParams} {p0 : PricePoint}
    {rest : List PricePoint} {res : SimulationResults}
    (h : runSimulation params (p0 :: rest) = some res) :
    validateParams params = true ∧
    res = finishRun params (p0 :: rest) ((p0 :: rest).getLast (List.cons_ne_nil p0 rest)) := by
  simp only [runSimulation] at h
  by_cases h1 : validateParams params = true
  · rw [if_pos h1] at h
    exact ⟨h1, (Option.some.inj h).symm⟩
  · rw [if_neg h1] at h
    exact Option.noConfusion h

/-- With validated parameters the simulation succeeds on every non-empty
price series (a single-point series included): the successful-run
hypotheses of the run-level theorems exclude nothing the source
handles. -/
lemma runSimulation_total (params : SimulationParams) (p0 : PricePoint)
    (rest : List PricePoint) (hv : validateParams params = true) :
    runSimulation params (p0 :: rest) =
      some (finishRun params (p0 :: rest) ((p0 :: rest).getLast (List.cons_ne_nil p0 rest))) := by
  simp only [runSimulation, if_pos hv]

/-! The ledger max-consecutive-losses fold versus the longest-run
specification. -/

lemma lossRunLen_le_spec : ∀ th : List TradeData, lossRunLen th ≤ maxLossRunSpec th := by
  intro th
  cases th with
  | nil => exact le_refl 0
  | cons t r => exact le_max_left _ _

lemma foldl_calcMax_spec : ∀ (th : List TradeData) (cur maxC : ℕ), cur ≤ maxC →
    (th.foldl calcMaxStep (cur, maxC)).2 =
      max maxC (max (cur + lossRunLen th) (maxLossRunSpec th)) := by
  intro th
  induction th with
  | nil =>
    intro cur maxC h
    simp only [List.foldl_nil, lossRunLen, maxLossRunSpec]
    omega
  | cons t r ih =>
    intro cur maxC h
    simp only [List.foldl_cons, calcMaxStep]
    split_ifs with hp
    · rw [ih (cur + 1) (max maxC (cur + 1)) (le_max_right _ _)]
      simp only [lossRunLen, maxLossRunSpec, if_pos hp]
      omega
    · rw [ih 0 maxC (Nat.zero_le _)]
      have hle := lossRunLen_le_spec r
      simp only [lossRunLen, maxLossRunSpec, if_neg hp]
      omega

lemma calcMax_eq_spec : ∀ th : List TradeData,
    calculateMaxConsecutiveLosses th = maxLossRunSpec th := by
  intro th
  unfold calculateMaxConsecutiveLosses
  rw [foldl_calcMax_spec th 0 0 (le_refl 0)]
  have hle := lossRunLen_le_spec th
  omega

/-- The equity-curve `reduce` as a mapped sum. -/
lemma unrealizedEquity_eq_sum (l : List ActivePosition) (c : ℚ) :
    unrealizedEquity l c =
      (l.map (fun pos =>
        pos.baseAmount + pos.leveragedAmount * ((c - pos.entryPrice) / pos.entryPrice))).sum := by
  unfold unrealizedEquity
  have key : ∀ (m : List ActivePosition) (a : ℚ),
      m.foldl (fun sum pos =>
        sum + (pos.baseAmount + pos.leveragedAmount * ((c - pos.entryPrice) / pos.entryPrice))) a =
        a + (m.map (fun pos =>
          pos.baseAmount + pos.leveragedAmount * ((c - pos.entryPrice) / pos.entryPrice))).sum := by
    intro m
    induction m with
    | nil => intro a; simp
    | cons p r ih => intro a; simp [ih]; ring
  rw [key]
  simp

/-! Claim theorems. -/

/-- C1: for every valid parameter record and every non-empty price series,
the final capital equals the starting capital plus the sum of `pnl` over
the final trade ledger minus the total fees paid — exact in the rational
model, so each fee dollar is subtracted exactly once (at daily accrual,
never again at close). -/
theorem C1_capital_accounting (params : SimulationParams) (p0 : PricePoint)
    (rest : List PricePoint) (res : SimulationResults)
    (h : runSimulation params (p0 :: rest) = some res) :
    res.finalCapital = params.investmentCapital + sumPnl res.tradeHistory - res.totalFees := by
  obtain ⟨hv, hres⟩ := runSimulation_some h
  subst hres
  dsimp only [finishRun, assembleResults]
  obtain ⟨ha, hb, hc, hd⟩ := simulateLoop_inv params (p0 :: rest)
  have l1 := liquidateAll_acct ((p0 :: rest).getLast (List.cons_ne_nil p0 rest)).currentPrice
    ((p0 :: rest).getLast (List.cons_ne_nil p0 rest)).date
    (simulateLoop params (p0 :: rest)).activePositions (simulateLoop params (p0 :: rest))
  have l2 := liquidateAll_ledger ((p0 :: rest).getLast (List.cons_ne_nil p0 rest)).currentPrice
    ((p0 :: rest).getLast (List.cons_ne_nil p0 rest)).date
    (simulateLoop params (p0 :: rest)).activePositions (simulateLoop params (p0 :: rest))
  have l3 := (liquidateAll_frozen ((p0 :: rest).getLast (List.cons_ne_nil p0 rest)).currentPrice
    ((p0 :: rest).getLast (List.cons_ne_nil p0 rest)).date
    (simulateLoop params (p0 :: rest)).activePositions (simulateLoop params (p0 :: rest))).1
  linarith

/-- C3: no position is silently dropped: the final ledger length equals
the executed-trade count; every position still open at the end of the
series is appended by `liquidateAll`, closed at the last available price
on the last available date with the same realized-P&L formula as a stop
exit. -/
theorem C3_ledger_complete (params : SimulationParams) (p0 : PricePoint)
    (rest : List PricePoint) (res : SimulationResults)
    (h : runSimulation params (p0 :: rest) = some res) :
    res.tradeHistory.length = res.totalTrades ∧
    (∀ (lp : ℚ) (ld : ℕ) (pos : ActivePosition) (st : SimState),
      (liqTrade lp ld pos st).exit = ld ∧ (liqTrade lp ld pos st).exitPrice = lp ∧
      (liqTrade lp ld pos st).pnl =
        pos.leveragedAmount * (lp - pos.entryPrice) / pos.entryPrice) ∧
    (∀ (lp : ℚ) (ld : ℕ) (l : List ActivePosition) (st : SimState),
      (liquidateAll lp ld l st).1.tradeHistory.length = st.tradeHistory.length + l.length) := by
  refine ⟨?_, ?_, liquidateAll_len⟩
  · obtain ⟨hv, hres⟩ := runSimulation_some h
    subst hres
    dsimp only [finishRun, assembleResults]
    obtain ⟨ha, hb, hc, hd⟩ := simulateLoop_inv params (p0 :: rest)
    rw [liquidateAll_len, (liquidateAll_frozen _ _ _ _).2.1]
    exact hc
  · intro lp ld pos st
    exact ⟨rfl, rfl, by simp [liqTrade, liqPnl, mul_div_assoc]⟩

/-- C10: with validated parameters and a price series whose daily highs
dominate its (positive) opens, every trade closed by the trailing stop
during the day loop loses at most the stop-loss dollar amount whenever
that amount does not exceed the trade's leveraged exposure: the synthetic
exit-price reconstruction caps the realized loss. -/
theorem C10_stop_loss_bounded (params : SimulationParams) (series : List PricePoint)
    (hv : validateParams params = true)
    (hprices : ∀ pt ∈ series, 0 < pt.openingPrice ∧ pt.openingPrice ≤ pt.highestPrice) :
    ∀ t ∈ (simulateLoop params series).tradeHistory,
      params.stopLossDollar ≤ t.leveragedAmount → -params.stopLossDollar ≤ t.pnl := by
  have hs := validate_stop_pos hv
  cases series with
  | nil =>
    intro t ht
    simp [simulateLoop, initState] at ht
  | cons p0 rest =>
    have h := runDays_bound params hs rest p0 (initState params)
      (fun pt hpt => hprices pt (List.mem_cons_of_mem p0 hpt))
      (by intro p hp; simp [initState] at hp)
      (by intro t ht; simp [initState] at ht)
    exact h.2

/-- C8 (amended): the reported `maxConsecutiveLosses` equals the longest
run of consecutive losing trades among the stop-closed trades of the day
loop only; end-of-series liquidation trades never update it.  The
standalone ledger metric `calculateMaxConsecutiveLosses` does equal the
longest run of `pnl < 0` trades in ledger order. -/
theorem C8_amended_max_consecutive (params : SimulationParams) (p0 : PricePoint)
    (rest : List PricePoint) (res : SimulationResults)
    (h : runSimulation params (p0 :: rest) = some res) :
    res.maxConsecutiveLosses =
      maxLossRunSpec (simulateLoop params (p0 :: rest)).tradeHistory ∧
    (∀ th, calculateMaxConsecutiveLosses th = maxLossRunSpec th) ∧
    calculateMaxConsecutiveLosses
      [pnlTrade 1, pnlTrade (-1), pnlTrade (-1), pnlTrade 1, pnlTrade (-1)] = 2 ∧
    (∀ (lp : ℚ) (ld : ℕ) (l : List ActivePosition) (st : SimState),
      (liquidateAll lp ld l st).1.maxConsecutiveLosses = st.maxConsecutiveLosses) := by
  refine ⟨?_, calcMax_eq_spec,
    by norm_num [calculateMaxConsecutiveLosses, calcMaxStep, pnlTrade, dummyTrade],
    fun lp ld l st => (liquidateAll_frozen lp ld l st).2.2.2.2.1⟩
  obtain ⟨hv, hres⟩ := runSimulation_some h
  subst hres
  dsimp only [finishRun, assembleResults]
  obtain ⟨ha, hb, hc, hd⟩ := simulateLoop_inv params (p0 :: rest)
  rw [(liquidateAll_frozen _ _ _ _).2.2.2.2.1, ← calcMax_eq_spec]
  unfold calculateMaxConsecutiveLosses
  rw [← hd]

/-- C2: in trailing mode the stop fires exactly when
`leveragedAmount * (highest - dailyLow) / highest ≥ stopLossAmount` (the
high-water mark having been raised to the day's high first); the close
then uses the synthetic exit price
`highest * (1 - stopLossAmount/leveragedAmount)`, records
`pnl = leveragedAmount * (exitPrice - entryPrice) / entryPrice`, returns
`baseAmount + pnl` to cash, and stores the accumulated fees in the trade
record without subtracting them from the returned cash. -/
theorem C2_trailing_stop_exit (params : SimulationParams) (day : PricePoint)
    (pos : ActivePosition) (rest : List ActivePosition) (st : SimState) :
    (∀ low hi lev s : ℚ,
      isStopLossTriggered low hi lev s true = decide (lev * (hi - low) / hi ≥ s)) ∧
    (isStopLossTriggered day.lowestPrice (updateHighest pos day.highestPrice).highestPrice
        (updateHighest pos day.highestPrice).leveragedAmount params.stopLossDollar
        params.useTrailingStop = true →
      stopScan params day (pos :: rest) st =
        stopScan params day rest
          (closeByStop params day (updateHighest pos day.highestPrice) st)) ∧
    (closeByStop params day pos st).currentCapital =
      st.currentCapital + pos.baseAmount + stopPnl params pos ∧
    stopPnl params pos = pos.leveragedAmount *
      (calculateStopLossPrice pos.highestPrice pos.leveragedAmount params.stopLossDollar -
        pos.entryPrice) / pos.entryPrice ∧
    calculateStopLossPrice pos.highestPrice pos.leveragedAmount params.stopLossDollar =
      pos.highestPrice * (1 - params.stopLossDollar / pos.leveragedAmount) ∧
    (closeByStop params day pos st).tradeHistory =
      st.tradeHistory ++ [stopTrade params day pos st] ∧
    (stopTrade params day pos st).fees = pos.accumulatedFees := by
  refine ⟨?_, ?_, by simp [closeByStop]; ring, by simp [stopPnl, mul_div_assoc], rfl,
    by simp [closeByStop], rfl⟩
  · intro low hi lev s
    simp only [isStopLossTriggered]
    norm_num [mul_div_assoc]
  · intro htrig
    simp only [stopScan, if_pos htrig]

/-- C4 (amended): fees are charged once per date change; each due
position pays `dailyFeePercent/100 * baseAmount` and accrues to both the
running `totalFees` and its own accumulator when cash covers the fee;
otherwise the remaining cash is paid, cash becomes zero and processing of
the remaining positions stops for that day.  `totalFees` is non-decreasing
and stays nonnegative only as long as cash is nonnegative: a stop close
that drives cash negative makes the partial-payment branch add negative
cash to `totalFees`. -/
theorem C4_amended_daily_fees (params : SimulationParams) (day : PricePoint) (st : SimState)
    (d : ℕ) (pos : ActivePosition) (rest : List ActivePosition) (cap fees : ℚ) :
    (st.currentDate = some day.date → feeStage params day st = st) ∧
    (pos.lastFeeDate ≠ d → dailyFeeOf params pos ≤ cap →
      applyDailyFees params d (pos :: rest) cap fees =
        ({ pos with accumulatedFees := pos.accumulatedFees + dailyFeeOf params pos,
                    lastFeeDate := d } ::
            (applyDailyFees params d rest (cap - dailyFeeOf params pos)
              (fees + dailyFeeOf params pos)).1,
         (applyDailyFees params d rest (cap - dailyFeeOf params pos)
            (fees + dailyFeeOf params pos)).2.1,
         (applyDailyFees params d rest (cap - dailyFeeOf params pos)
            (fees + dailyFeeOf params pos)).2.2)) ∧
    (pos.lastFeeDate ≠ d → ¬ dailyFeeOf params pos ≤ cap →
      applyDailyFees params d (pos :: rest) cap fees =
        ({ pos with accumulatedFees := pos.accumulatedFees + cap } :: rest, 0, fees + cap)) ∧
    dailyFeeOf params pos = params.dailyFeePercent / 100 * pos.baseAmount ∧
    (0 ≤ cap → 0 ≤ params.dailyFeePercent → (∀ p ∈ pos :: rest, 0 ≤ p.baseAmount) →
      fees ≤ (applyDailyFees params d (pos :: rest) cap fees).2.2 ∧
        0 ≤ (applyDailyFees params d (pos :: rest) cap fees).2.1) := by
  refine ⟨?_, ?_, ?_, rfl, ?_⟩
  · intro hdate
    unfold feeStage
    rw [if_pos hdate]
  · intro h1 h2
    simp only [applyDailyFees, if_pos h1, if_pos h2]
  · intro h1 h2
    simp only [applyDailyFees, if_pos h1, if_neg h2]
  · intro hc hr hb
    exact applyDailyFees_mono params d hr (pos :: rest) cap fees hc hb

/-- C5 (amended): the entry signal fires exactly on the open-to-open
formula; it is evaluated and acted on whenever cash is at least the
100-unit floor, regardless of how many positions are already open
(concurrent positions are allowed); when cash is below the floor and the
signal fires, only the skipped-trade counter is incremented. -/
theorem C5_amended_entry_gating (params : SimulationParams) (prev cur : PricePoint)
    (st : SimState) :
    (shouldOpenPosition cur.openingPrice prev.openingPrice params.minPriceMovement =
      decide ((cur.openingPrice - prev.openingPrice) / prev.openingPrice * 100 ≥
        params.minPriceMovement)) ∧
    (MIN_TRADING_CAPITAL ≤ st.currentCapital →
      shouldOpenPosition cur.openingPrice prev.openingPrice params.minPriceMovement = true →
      1 ≤ entryBase params st.currentCapital →
      tryEnter params prev cur st =
        { st with
          activePositions := st.activePositions ++ [entryPosition params cur st.currentCapital],
          currentCapital := st.currentCapital - entryBase params st.currentCapital,
          tradesExecuted := st.tradesExecuted + 1 }) ∧
    (¬ MIN_TRADING_CAPITAL ≤ st.currentCapital →
      shouldOpenPosition cur.openingPrice prev.openingPrice params.minPriceMovement = true →
      tryEnter params prev cur st = { st with skippedTrades := st.skippedTrades + 1 }) ∧
    (shouldOpenPosition cur.openingPrice prev.openingPrice params.minPriceMovement = false →
      tryEnter params prev cur st = st) := by
  exact ⟨rfl, tryEnter_open params prev cur st, tryEnter_skip params prev cur st,
    tryEnter_nosig params prev cur st⟩

/-- C6: when an entry signal is acted on, the position size is
`min(positionSizePercent/100 * capital, capital)`; a dust signal
(`baseAmount < 1`) opens nothing; otherwise the leveraged exposure is
`baseAmount * leverage` and `baseAmount` leaves cash at entry, coming back
as `baseAmount + pnl` only at a stop close or at liquidation. -/
theorem C6_position_sizing (params : SimulationParams) (prev cur day : PricePoint)
    (st : SimState) (pos : ActivePosition) (lp : ℚ) (ld : ℕ)
    (h1 : MIN_TRADING_CAPITAL ≤ st.currentCapital)
    (h2 : shouldOpenPosition cur.openingPrice prev.openingPrice params.minPriceMovement = true) :
    entryBase params st.currentCapital =
      min (params.positionSizePercent / 100 * st.currentCapital) st.currentCapital ∧
    (entryBase params st.currentCapital < 1 → tryEnter params prev cur st = st) ∧
    (1 ≤ entryBase params st.currentCapital →
      tryEnter params prev cur st =
        { st with
          activePositions := st.activePositions ++ [entryPosition params cur st.currentCapital],
          currentCapital := st.currentCapital - entryBase params st.currentCapital,
          tradesExecuted := st.tradesExecuted + 1 }) ∧
    (entryPosition params cur st.currentCapital).leveragedAmount =
      entryBase params st.currentCapital * params.leverage ∧
    (entryPosition params cur st.currentCapital).baseAmount =
      entryBase params st.currentCapital ∧
    (closeByStop params day pos st).currentCapital =
      st.currentCapital + (pos.baseAmount + stopPnl params pos) ∧
    (liqStep lp ld pos st).currentCapital =
      st.currentCapital + (pos.baseAmount + liqPnl lp pos) := by
  refine ⟨rfl, ?_, tryEnter_open params prev cur st h1 h2, rfl, rfl,
    by simp [closeByStop], rfl⟩
  intro hdust
  exact tryEnter_dust params prev cur st h1 h2 (not_le.mpr hdust)

/-- C7: each processed day appends exactly one equity point, carrying the
day's date and `cash + Σ (baseAmount + unrealizedPnl)` over the open
positions at the day's close (accumulated fees are not subtracted); over a
run the curve dates are an initial segment of the dates after the first,
hence strictly increasing (one point per distinct date) when the series
dates are. -/
theorem C7_equity_curve (params : SimulationParams) (p0 : PricePoint) (rest : List PricePoint)
    (res : SimulationResults) (h : runSimulation params (p0 :: rest) = some res)
    (hsorted : List.Chain' (· < ·) ((p0 :: rest).map PricePoint.date)) :
    (∃ suffix, rest.map PricePoint.date = res.equityCurve.map EquityPoint.date ++ suffix) ∧
    List.Chain' (· < ·) (res.equityCurve.map EquityPoint.date) ∧
    (∀ (P : SimulationParams) (prev cur : PricePoint) (s : SimState),
      (stepDay P prev cur s).equityCurve.length = s.equityCurve.length + 1 ∧
      stepDay P prev cur s =
        pushEquity cur (tryEnter P prev cur (processStops P cur (feeStage P cur s)))) ∧
    (∀ (cur : PricePoint) (s : SimState),
      (pushEquity cur s).equityCurve = s.equityCurve ++
        [{ date := cur.date,
           equity := s.currentCapital + unrealizedEquity s.activePositions cur.currentPrice }] ∧
      unrealizedEquity s.activePositions cur.currentPrice =
        (s.activePositions.map (fun pos =>
          pos.baseAmount +
            pos.leveragedAmount * ((cur.currentPrice - pos.entryPrice) / pos.entryPrice))).sum) :=
    by
  obtain ⟨hv, hres⟩ := runSimulation_some h
  obtain ⟨pts, suffix, hcurve, hdates⟩ := runDays_curve params rest p0 (initState params)
  have hresCurve : res.equityCurve = pts := by
    rw [hres]
    dsimp only [finishRun, assembleResults]
    rw [(liquidateAll_frozen _ _ _ _).2.2.2.1]
    show (simulateLoop params (p0 :: rest)).equityCurve = pts
    unfold simulateLoop
    rw [hcurve]
    simp [initState]
  refine ⟨⟨suffix, by rw [hresCurve]; exact hdates⟩, ?_, ?_, ?_⟩
  · rw [hresCurve]
    have htail : List.Chain' (· < ·) (rest.map PricePoint.date) := hsorted.tail
    rw [hdates] at htail
    exact (List.chain'_append.mp htail).1
  · intro P prev cur s
    refine ⟨?_, rfl⟩
    obtain ⟨e, he⟩ := stepDay_curve P prev cur s
    rw [he]
    simp
  · intro cur s
    exact ⟨rfl, unrealizedEquity_eq_sum s.activePositions cur.currentPrice⟩

/-- C9 (amended): the engine's `successRate` and `avgProfitPerTrade` are
guarded (0 on an empty ledger, 0.75 on three wins and one loss, division
by 1 when no trades), and `averageWin`/`averageLoss` are guarded to 0;
but not every derived metric degrades to a defined default — see the
counterexample for `winRate`/`profitFactor`. -/
theorem C9_amended_metric_defaults :
    successRateOf [] = 0 ∧
    successRateOf [pnlTrade 5, pnlTrade 6, pnlTrade 7, pnlTrade (-1)] = 3 / 4 ∧
    averageWin [] = 0 ∧
    averageLoss [] = 0 ∧
    (∀ (st : SimState) (ops : List OpenPosition),
      (assembleResults st ops).successRate = successRateOf st.tradeHistory ∧
      (assembleResults st ops).avgProfitPerTrade =
        st.totalProfitLoss / (if st.tradesExecuted = 0 then 1 else (st.tradesExecuted : ℚ))) := by
  refine ⟨by norm_num [successRateOf], ?_, by norm_num [averageWin],
    by norm_num [averageLoss], fun st ops => ⟨rfl, rfl⟩⟩
  norm_num [successRateOf, pnlTrade, dummyTrade, List.filter]

/-! Concrete scenarios: counterexamples and witnesses. -/

/-- Evaluation helper: the fresh-state date detector never matches a
concrete date. -/
lemma currentDate_none_ne_some (n : ℕ) : ((none : Option ℕ) = some n) = False := by simp

/-- Evaluation helper: a cons list is never the empty list. -/
lemma cons_ne_nil_eq {α : Type _} (a : α) (l : List α) : ((a :: l) = []) = False := by simp

def wParams1 : SimulationParams := ⟨10000, 1, 100, 200, 3 / 10, 1 / 10, true⟩

def wHead1 : PricePoint := ⟨1, 100, 100, 100, 100⟩

def wTail1 : List PricePoint := [⟨2, 101, 101, 101, 101⟩, ⟨3, 101, 101, 95, 95⟩]

def wRes1 : SimulationResults := (runSimulation wParams1 (wHead1 :: wTail1)).getD dummyResults

/-- Witness for C1 on a three-day run with one stop-closed trade and one
day of fees. -/
theorem C1_capital_accounting_witness :
    wRes1.finalCapital = wParams1.investmentCapital + sumPnl wRes1.tradeHistory -
      wRes1.totalFees :=
  C1_capital_accounting wParams1 wHead1 wTail1 wRes1 (by
    norm_num [currentDate_none_ne_some, cons_ne_nil_eq, Option.getD_some, Option.some.injEq, wParams1, wHead1, wTail1, wRes1,
      runSimulation, validateParams, simulateLoop, runDays, stepDay, feeStage, applyDailyFees,
      dailyFeeOf, processStops, stopScan, updateHighest, isStopLossTriggered, closeByStop,
      stopTrade, stopPnl, calculateStopLossPrice, calculateDaysHeld, tryEnter,
      shouldOpenPosition, entryBase, entryPosition, MIN_TRADING_CAPITAL, pushEquity,
      unrealizedEquity, initState, liquidateAll, liqStep, liqTrade, liqPnl, liqOpenRecord,
      finishRun, assembleResults, successRateOf, calculateDrawdown, drawdownFold, min_def,
      dummyResults, dummyTrade, List.getLast, Option.map])

def wParams2 : SimulationParams := ⟨10000, 1, 100, 200, 3 / 10, 1 / 10, true⟩

def wPos2 : ActivePosition := ⟨100, 2, 101, 100, 10000, 1 / 10, 2, 10000⟩

def wDay2 : PricePoint := ⟨3, 101, 101, 95, 95⟩

/-- Witness for C2: on a day whose low is 95 against a high-water mark of
101 and a 10000 leveraged exposure, the trailing stop triggers and the
scan closes the position through `closeByStop`. -/
theorem C2_trailing_stop_exit_witness :
    stopScan wParams2 wDay2 (wPos2 :: []) (initState wParams2) =
      stopScan wParams2 wDay2 []
        (closeByStop wParams2 wDay2 (updateHighest wPos2 wDay2.highestPrice)
          (initState wParams2)) :=
  (C2_trailing_stop_exit wParams2 wDay2 wPos2 [] (initState wParams2)).2.1 (by
    norm_num [isStopLossTriggered, updateHighest, wPos2, wDay2, wParams2])

def wParams3 : SimulationParams := ⟨10000, 1, 100, 200, 3 / 10, 1 / 10, true⟩

def wHead3 : PricePoint := ⟨1, 100, 100, 100, 100⟩

def wTail3 : List PricePoint := [⟨2, 101, 101, 101, 101⟩, ⟨3, 102, 102, 102, 102⟩]

def wRes3 : SimulationResults := (runSimulation wParams3 (wHead3 :: wTail3)).getD dummyResults

/-- Witness for C3 on a run that liquidates two still-open positions at
the end of the series. -/
theorem C3_ledger_complete_witness : wRes3.tradeHistory.length = wRes3.totalTrades :=
  (C3_ledger_complete wParams3 wHead3 wTail3 wRes3 (by
    norm_num [currentDate_none_ne_some, cons_ne_nil_eq, Option.getD_some, Option.some.injEq, wParams3, wHead3, wTail3, wRes3,
      runSimulation, validateParams, simulateLoop, runDays, stepDay, feeStage, applyDailyFees,
      dailyFeeOf, processStops, stopScan, updateHighest, isStopLossTriggered, closeByStop,
      stopTrade, stopPnl, calculateStopLossPrice, calculateDaysHeld, tryEnter,
      shouldOpenPosition, entryBase, entryPosition, MIN_TRADING_CAPITAL, pushEquity,
      unrealizedEquity, initState, liquidateAll, liqStep, liqTrade, liqPnl, liqOpenRecord,
      finishRun, assembleResults, successRateOf, calculateDrawdown, drawdownFold, min_def,
      dummyResults, dummyTrade, List.getLast, Option.map])).1

def cParams4 : SimulationParams := ⟨10000, 50, 200, 200000, 0, 10, true⟩

def cSeries4 : List PricePoint :=
  [⟨1, 100, 100, 100, 100⟩, ⟨2, 100, 100, 100, 100⟩, ⟨3, 100, 100, 100, 100⟩,
   ⟨4, 100, 100, 70, 70⟩, ⟨5, 70, 70, 70, 70⟩]

/-- Counterexample for C4: with valid parameters and positive prices, a
stop close drives cash to −193475 while a second position stays open; the
next day's partial fee payment adds that negative cash to `totalFees`,
which ends at −192250 < 0, refuting "totalFees is never negative". -/
theorem C4_counterexample_negative_fees :
    (runSimulation cParams4 cSeries4).map (fun r => r.totalFees) = some (-192250) ∧
    ¬ (0 : ℚ) ≤ -192250 := by
  constructor
  · norm_num [currentDate_none_ne_some, cons_ne_nil_eq, Option.getD_some, Option.some.injEq, cParams4, cSeries4,
      runSimulation, validateParams, simulateLoop, runDays, stepDay, feeStage, applyDailyFees,
      dailyFeeOf, processStops, stopScan, updateHighest, isStopLossTriggered, closeByStop,
      stopTrade, stopPnl, calculateStopLossPrice, calculateDaysHeld, tryEnter,
      shouldOpenPosition, entryBase, entryPosition, MIN_TRADING_CAPITAL, pushEquity,
      unrealizedEquity, initState, liquidateAll, liqStep, liqTrade, liqPnl, liqOpenRecord,
      finishRun, assembleResults, successRateOf, calculateDrawdown, drawdownFold, min_def,
      dummyResults, dummyTrade, List.getLast, Option.map]
  · norm_num

def wPos4 : ActivePosition := ⟨100, 1, 100, 50, 5000, 0, 1, 10000⟩

/-- Witness for C4 (amended): a due position whose 5-unit fee is covered
by 100 units of cash is charged in full. -/
theorem C4_amended_daily_fees_witness :
    applyDailyFees cParams4 2 (wPos4 :: []) 100 0 =
      ({ wPos4 with accumulatedFees := wPos4.accumulatedFees + dailyFeeOf cParams4 wPos4,
                    lastFeeDate := 2 } ::
          (applyDailyFees cParams4 2 [] (100 - dailyFeeOf cParams4 wPos4)
            (0 + dailyFeeOf cParams4 wPos4)).1,
       (applyDailyFees cParams4 2 [] (100 - dailyFeeOf cParams4 wPos4)
          (0 + dailyFeeOf cParams4 wPos4)).2.1,
       (applyDailyFees cParams4 2 [] (100 - dailyFeeOf cParams4 wPos4)
          (0 + dailyFeeOf cParams4 wPos4)).2.2) :=
  (C4_amended_daily_fees cParams4 wDay2 (initState cParams4) 2 wPos4 [] 100 0).2.1
    (by norm_num [wPos4]) (by norm_num [dailyFeeOf, cParams4, wPos4])

def cParams5 : SimulationParams := ⟨10000, 1, 100, 200, 3 / 10, 1 / 10, true⟩

def cSeries5 : List PricePoint :=
  [⟨1, 100, 100, 100, 100⟩, ⟨2, 110, 110, 110, 110⟩, ⟨3, 121, 121, 121, 121⟩]

/-- Counterexample for C5: after two rising days the loop state holds two
concurrently open positions and two executed trades with an empty ledger,
so the entry rule was evaluated and acted on while a position was already
open. -/
theorem C5_counterexample_concurrent_positions :
    (simulateLoop cParams5 cSeries5).activePositions.length = 2 ∧
    (simulateLoop cParams5 cSeries5).tradesExecuted = 2 ∧
    (simulateLoop cParams5 cSeries5).tradeHistory = [] := by
  refine ⟨?_, ?_, ?_⟩ <;>
    norm_num [currentDate_none_ne_some, cons_ne_nil_eq, Option.getD_some, Option.some.injEq, cParams5, cSeries5,
      simulateLoop, runDays, stepDay, feeStage, applyDailyFees, dailyFeeOf, processStops,
      stopScan, updateHighest, isStopLossTriggered, closeByStop, stopTrade, stopPnl,
      calculateStopLossPrice, calculateDaysHeld, tryEnter, shouldOpenPosition, entryBase,
      entryPosition, MIN_TRADING_CAPITAL, pushEquity, unrealizedEquity, initState, min_def]

def wPrev5 : PricePoint := ⟨2, 110, 110, 110, 110⟩

def wCur5 : PricePoint := ⟨3, 121, 121, 121, 121⟩

def wState5 : SimState :=
  { initState cParams5 with
    currentCapital := 5000,
    activePositions := [entryPosition cParams5 wPrev5 10000] }

/-- Witness for C5 (amended): the entry fires and opens a second position
even though `wState5` already holds an open position. -/
theorem C5_amended_entry_gating_witness :
    tryEnter cParams5 wPrev5 wCur5 wState5 =
      { wState5 with
        activePositions := wState5.activePositions ++
          [entryPosition cParams5 wCur5 wState5.currentCapital],
        currentCapital := wState5.currentCapital - entryBase cParams5 wState5.currentCapital,
        tradesExecuted := wState5.tradesExecuted + 1 } :=
  (C5_amended_entry_gating cParams5 wPrev5 wCur5 wState5).2.1
    (by norm_num [MIN_TRADING_CAPITAL, wState5, initState])
    (by norm_num [shouldOpenPosition, wPrev5, wCur5, cParams5])
    (by norm_num [entryBase, cParams5, wState5, initState, min_def])

def wParams6 : SimulationParams := ⟨10000, 1 / 2, 100, 200, 3 / 10, 1 / 10, true⟩

def wState6 : SimState := { initState wParams6 with currentCapital := 150 }

def wPrev6 : PricePoint := ⟨1, 100, 100, 100, 100⟩

def wCur6 : PricePoint := ⟨2, 101, 101, 101, 101⟩

def dummyPos : ActivePosition := ⟨0, 0, 0, 0, 0, 0, 0, 0⟩

/-- Witness for C6: with 150 units of cash and a 0.5% position size the
signal fires but `baseAmount = 0.75 < 1`, so nothing is opened. -/
theorem C6_position_sizing_witness :
    tryEnter wParams6 wPrev6 wCur6 wState6 = wState6 :=
  (C6_position_sizing wParams6 wPrev6 wCur6 wCur6 wState6 dummyPos 0 0
      (by norm_num [MIN_TRADING_CAPITAL, wState6, initState])
      (by norm_num [shouldOpenPosition, wPrev6, wCur6, wParams6])).2.1
    (by norm_num [entryBase, wParams6, wState6, initState, min_def])

def wParams7 : SimulationParams := ⟨10000, 1, 100, 200, 3 / 10, 1 / 10, true⟩

def wHead7 : PricePoint := ⟨1, 100, 100, 100, 100⟩

def wTail7 : List PricePoint := [⟨2, 101, 101, 101, 101⟩, ⟨3, 102, 102, 102, 102⟩]

def wRes7 : SimulationResults := (runSimulation wParams7 (wHead7 :: wTail7)).getD dummyResults

/-- Witness for C7: on a strictly dated three-day run the curve dates form
an initial segment of the dates after the first. -/
theorem C7_equity_curve_witness :
    ∃ suffix, wTail7.map PricePoint.date = wRes7.equityCurve.map EquityPoint.date ++ suffix :=
  (C7_equity_curve wParams7 wHead7 wTail7 wRes7 (by
    norm_num [currentDate_none_ne_some, cons_ne_nil_eq, Option.getD_some, Option.some.injEq, wParams7, wHead7, wTail7, wRes7,
      runSimulation, validateParams, simulateLoop, runDays, stepDay, feeStage, applyDailyFees,
      dailyFeeOf, processStops, stopScan, updateHighest, isStopLossTriggered, closeByStop,
      stopTrade, stopPnl, calculateStopLossPrice, calculateDaysHeld, tryEnter,
      shouldOpenPosition, entryBase, entryPosition, MIN_TRADING_CAPITAL, pushEquity,
      unrealizedEquity, initState, liquidateAll, liqStep, liqTrade, liqPnl, liqOpenRecord,
      finishRun, assembleResults, successRateOf, calculateDrawdown, drawdownFold, min_def,
      dummyResults, dummyTrade, List.getLast, Option.map])
    (by norm_num [wHead7, wTail7, List.chain'_cons, List.chain'_singleton])).1

def cParams8 : SimulationParams := ⟨10000, 1, 1, 200, 3 / 10, 0, true⟩

def cHead8 : PricePoint := ⟨1, 100, 100, 100, 100⟩

def cTail8 : List PricePoint := [⟨2, 101, 101, 101, 100⟩]

/-- Counterexample for C8: a single end-of-series liquidation loss gives a
ledger whose longest losing run is 1, while the reported
`maxConsecutiveLosses` stays 0 — the reported metric does not count
liquidation trades. -/
theorem C8_counterexample_liquidation_ignored :
    (runSimulation cParams8 (cHead8 :: cTail8)).map
      (fun r => (r.maxConsecutiveLosses, calculateMaxConsecutiveLosses r.tradeHistory)) =
      some (0, 1) := by
  norm_num [currentDate_none_ne_some, cons_ne_nil_eq, Option.getD_some, Option.some.injEq, cParams8, cHead8, cTail8,
    runSimulation, validateParams, simulateLoop, runDays, stepDay, feeStage, applyDailyFees,
    dailyFeeOf, processStops, stopScan, updateHighest, isStopLossTriggered, closeByStop,
    stopTrade, stopPnl, calculateStopLossPrice, calculateDaysHeld, tryEnter,
    shouldOpenPosition, entryBase, entryPosition, MIN_TRADING_CAPITAL, pushEquity,
    unrealizedEquity, initState, liquidateAll, liqStep, liqTrade, liqPnl, liqOpenRecord,
    finishRun, assembleResults, successRateOf, calculateDrawdown, drawdownFold, min_def,
    dummyResults, dummyTrade, List.getLast, Option.map, calculateMaxConsecutiveLosses,
    calcMaxStep]

def wRes8 : SimulationResults := (runSimulation cParams8 (cHead8 :: cTail8)).getD dummyResults

/-- Witness for C8 (amended): the reported counter equals the longest
losing run over the loop ledger (here 0, the loop closed nothing). -/
theorem C8_amended_max_consecutive_witness :
    wRes8.maxConsecutiveLosses =
      maxLossRunSpec (simulateLoop cParams8 (cHead8 :: cTail8)).tradeHistory :=
  (C8_amended_max_consecutive cParams8 cHead8 cTail8 wRes8 (by
    norm_num [currentDate_none_ne_some, cons_ne_nil_eq, Option.getD_some, Option.some.injEq, cParams8, cHead8, cTail8, wRes8,
      runSimulation, validateParams, simulateLoop, runDays, stepDay, feeStage, applyDailyFees,
      dailyFeeOf, processStops, stopScan, updateHighest, isStopLossTriggered, closeByStop,
      stopTrade, stopPnl, calculateStopLossPrice, calculateDaysHeld, tryEnter,
      shouldOpenPosition, entryBase, entryPosition, MIN_TRADING_CAPITAL, pushEquity,
      unrealizedEquity, initState, liquidateAll, liqStep, liqTrade, liqPnl, liqOpenRecord,
      finishRun, assembleResults, successRateOf, calculateDrawdown, drawdownFold, min_def,
      dummyResults, dummyTrade, List.getLast, Option.map])).1

/-- Counterexample for C9: `calculatePerformanceMetrics` divides
unguarded — `winRate` on an empty ledger is `0/0` (IEEE `NaN`, modelled
`none`) and `profitFactor` on a ledger with no losing trade divides by
zero (non-finite). -/
theorem C9_counterexample_nan_metrics :
    winRate ([] : List TradeData) = none ∧ profitFactor [pnlTrade 5] = none := by
  constructor
  · norm_num [winRate, jsDiv]
  · norm_num [profitFactor, winRate, jsDiv, averageWin, averageLoss, pnlTrade, dummyTrade,
      List.filter]

def wParams10 : SimulationParams := ⟨10000, 1, 100, 200, 3 / 10, 0, true⟩

def wSeries10 : List PricePoint :=
  [⟨1, 100, 100, 100, 100⟩, ⟨2, 101, 101, 101, 101⟩, ⟨3, 101, 101, 95, 95⟩]

def wTrade10 : TradeData := (simulateLoop wParams10 wSeries10).tradeHistory.getD 0 dummyTrade

/-- Witness for C10: the gap day closes the 10000-exposure position with
`pnl = -200`, exactly the stop amount, despite a 6-unit price gap. -/
theorem C10_stop_loss_bounded_witness :
    -wParams10.stopLossDollar ≤ wTrade10.pnl :=
  C10_stop_loss_bounded wParams10 wSeries10 (by norm_num [validateParams, wParams10])
    (by
      intro pt hpt
      simp only [wSeries10, List.mem_cons, List.not_mem_nil, or_false] at hpt
      rcases hpt with rfl | rfl | rfl <;> norm_num)
    wTrade10
    (by
      norm_num [currentDate_none_ne_some, cons_ne_nil_eq, Option.getD_some, Option.some.injEq, wParams10, wSeries10, wTrade10,
        simulateLoop, runDays, stepDay, feeStage, applyDailyFees, dailyFeeOf, processStops,
        stopScan, updateHighest, isStopLossTriggered, closeByStop, stopTrade, stopPnl,
        calculateStopLossPrice, calculateDaysHeld, tryEnter, shouldOpenPosition, entryBase,
        entryPosition, MIN_TRADING_CAPITAL, pushEquity, unrealizedEquity, initState, min_def,
        dummyTrade, List.getD])
    (by
      norm_num [currentDate_none_ne_some, cons_ne_nil_eq, Option.getD_some, Option.some.injEq, wParams10, wSeries10, wTrade10,
        simulateLoop, runDays, stepDay, feeStage, applyDailyFees, dailyFeeOf, processStops,
        stopScan, updateHighest, isStopLossTriggered, closeByStop, stopTrade, stopPnl,
        calculateStopLossPrice, calculateDaysHeld, tryEnter, shouldOpenPosition, entryBase,
        entryPosition, MIN_TRADING_CAPITAL, pushEquity, unrealizedEquity, initState, min_def,
        dummyTrade, List.getD])

end GoldSim
